import Mathlib

/-!
# Verification of the `multistr` string-like conversion contract

Shallow embedding of `src/strlike.rs`: the `StrLike` / `StrLikeMut` trait
operations and their three instantiations (`[T]`, `str`, `CStr`).

Modelling choices:
* A byte is a `Nat` (in the program always `< 256`); a byte slice `[u8]` is a
  `List Nat`; an element slice `[T]` is a `List T`.
* A `&str` value is represented by its byte content (in Rust, `str` has the
  same representation as `[u8]`, with the UTF-8 validity invariant on the
  side); likewise a `&CStr` value is represented by its bytes including the
  trailing nul (`to_bytes_with_nul` view).
* `&`-taking functions become pure Lean functions; `&mut`-taking fallible
  functions are embedded in state-passing style, returning the result
  together with the final content of the borrowed buffer.
* Rust's never type `!` (the `ConvError` of `[T]`) is an empty inductive.
-/

/-- Model of Rust's never type `!`, the conversion error of the `[T]`
instantiation: an uninhabited type. -/
inductive NeverError : Type where
deriving DecidableEq

/-- Model of `std::str::Utf8Error`: position of the first invalid byte and
(optionally) the length of the invalid sequence. -/
structure Utf8Error where
  valid_up_to : Nat
  error_len : Option Nat
deriving DecidableEq, Repr

/-- Model of `std::ffi::FromBytesWithNulError` (as produced by
`CStr::from_bytes_with_nul`): an interior nul at a given position, or a
missing nul terminator. -/
inductive FromBytesWithNulError : Type where
  | interiorNul (position : Nat)
  | notNulTerminated
deriving DecidableEq, Repr

/-- `core::str::validations::utf8_char_width`: expected width of a UTF-8
sequence from its first byte (0 for bytes that cannot start a sequence). -/
def utf8_char_width (b : Nat) : Nat :=
  if b ≤ 0x7F then 1
  else if b ≤ 0xC1 then 0
  else if b ≤ 0xDF then 2
  else if b ≤ 0xEF then 3
  else if b ≤ 0xF4 then 4
  else 0

/-- A UTF-8 continuation byte: `0x80 ..= 0xBF` (in the Rust validator this is
the check `b as i8 < -64`). -/
def isCont (b : Nat) : Prop := 0x80 ≤ b ∧ b ≤ 0xBF

instance : DecidablePred isCont := fun b => by
  unfold isCont; infer_instance

/-- Allowed (first, second) byte pairs of a three-byte UTF-8 sequence, as
matched by the Rust validator:
`(0xE0, 0xA0..=0xBF) | (0xE1..=0xEC, 0x80..=0xBF) | (0xED, 0x80..=0x9F) |
(0xEE..=0xEF, 0x80..=0xBF)`. -/
def valid3 (b0 b1 : Nat) : Prop :=
  (b0 = 0xE0 ∧ 0xA0 ≤ b1 ∧ b1 ≤ 0xBF) ∨
  (0xE1 ≤ b0 ∧ b0 ≤ 0xEC ∧ 0x80 ≤ b1 ∧ b1 ≤ 0xBF) ∨
  (b0 = 0xED ∧ 0x80 ≤ b1 ∧ b1 ≤ 0x9F) ∨
  (0xEE ≤ b0 ∧ b0 ≤ 0xEF ∧ 0x80 ≤ b1 ∧ b1 ≤ 0xBF)

instance : ∀ b0 b1, Decidable (valid3 b0 b1) := fun b0 b1 => by
  unfold valid3; infer_instance

/-- Allowed (first, second) byte pairs of a four-byte UTF-8 sequence, as
matched by the Rust validator:
`(0xF0, 0x90..=0xBF) | (0xF1..=0xF3, 0x80..=0xBF) | (0xF4, 0x80..=0x8F)`. -/
def valid4 (b0 b1 : Nat) : Prop :=
  (b0 = 0xF0 ∧ 0x90 ≤ b1 ∧ b1 ≤ 0xBF) ∨
  (0xF1 ≤ b0 ∧ b0 ≤ 0xF3 ∧ 0x80 ≤ b1 ∧ b1 ≤ 0xBF) ∨
  (b0 = 0xF4 ∧ 0x80 ≤ b1 ∧ b1 ≤ 0x8F)

instance : ∀ b0 b1, Decidable (valid4 b0 b1) := fun b0 b1 => by
  unfold valid4; infer_instance

/-- `core::str::validations::run_utf8_validation`, recursion over the
remaining bytes with `i` the index of the current byte in the original slice;
`none` means the slice validated, `some e` is the `Utf8Error`. -/
def validateFrom (i : Nat) : List Nat → Option Utf8Error
  | [] => none
  | b :: rest =>
    if b < 0x80 then
      validateFrom (i + 1) rest
    else if utf8_char_width b = 2 then
      match rest with
      | [] => some ⟨i, none⟩
      | b1 :: rest1 =>
        if isCont b1 then validateFrom (i + 2) rest1 else some ⟨i, some 1⟩
    else if utf8_char_width b = 3 then
      match rest with
      | [] => some ⟨i, none⟩
      | b1 :: rest1 =>
        if valid3 b b1 then
          match rest1 with
          | [] => some ⟨i, none⟩
          | b2 :: rest2 =>
            if isCont b2 then validateFrom (i + 3) rest2 else some ⟨i, some 2⟩
        else some ⟨i, some 1⟩
    else if utf8_char_width b = 4 then
      match rest with
      | [] => some ⟨i, none⟩
      | b1 :: rest1 =>
        if valid4 b b1 then
          match rest1 with
          | [] => some ⟨i, none⟩
          | b2 :: rest2 =>
            if isCont b2 then
              match rest2 with
              | [] => some ⟨i, none⟩
              | b3 :: rest3 =>
                if isCont b3 then validateFrom (i + 4) rest3
                else some ⟨i, some 3⟩
            else some ⟨i, some 2⟩
        else some ⟨i, some 1⟩
    else some ⟨i, some 1⟩

/-- `std::str::from_utf8`: validate, and on success reinterpret the bytes as
a `&str` (the value carries the same bytes). -/
def from_utf8 (v : List Nat) : Except Utf8Error (List Nat) :=
  match validateFrom 0 v with
  | none => .ok v
  | some e => .error e

/-- `memchr(0, bytes)`: index of the first nul byte, if any (used by
`CStr::from_bytes_with_nul`). -/
def memchr0 : List Nat → Option Nat
  | [] => none
  | b :: rest => if b = 0 then some 0 else (memchr0 rest).map (· + 1)

/-! ## The `[T]` instantiation (`impl<T: 'static + Copy> StrLike for [T]`) -/

/-- `<[T] as StrLike>::to_data`: the slice itself. -/
def slice_to_data {T : Type} (s : List T) : List T := s

/-- `<[T] as StrLike>::from_data`: always `Ok(data)`; the error type is
Rust's `!`, modelled by `NeverError`. -/
def slice_from_data {T : Type} (data : List T) : Except NeverError (List T) :=
  .ok data

/-- `<[T] as StrLike>::from_data_unchecked`: the data itself. -/
def slice_from_data_unchecked {T : Type} (data : List T) : List T := data

/-- `<[T] as StrLikeMut>::from_data_mut` in state-passing style: result plus
final content of the borrowed buffer (the source performs no write). -/
def slice_from_data_mut {T : Type} (data : List T) :
    Except NeverError (List T) × List T :=
  (.ok data, data)

/-- `<[T] as StrLikeMut>::to_data_mut`: the slice itself. -/
def slice_to_data_mut {T : Type} (s : List T) : List T := s

/-! ## The `str` instantiation (`impl StrLike for str`, `impl StrLikeMut`) -/

/-- `<str as StrLike>::to_data`, i.e. `str::as_bytes`: the value's bytes. -/
def str_to_data (s : List Nat) : List Nat := s

/-- `<str as StrLike>::from_data`, i.e. `std::str::from_utf8`. -/
def str_from_data (data : List Nat) : Except Utf8Error (List Nat) :=
  from_utf8 data

/-- `<str as StrLike>::from_data_unchecked`, i.e. `from_utf8_unchecked`: a
transmute, identity on the representation. -/
def str_from_data_unchecked (data : List Nat) : List Nat := data

/-- `<str as StrLikeMut>::to_data_mut`: a transmute, identity on the
representation. -/
def str_to_data_mut (s : List Nat) : List Nat := s

/-- `<str as StrLikeMut>::from_data_mut` in state-passing style:
`from_utf8(data)?; Ok(transmute(data))` — validate, then reinterpret the same
buffer; the buffer is never written. -/
def str_from_data_mut (data : List Nat) :
    Except Utf8Error (List Nat) × List Nat :=
  match validateFrom 0 data with
  | none => (.ok data, data)
  | some e => (.error e, data)

/-- `<str as StrLikeMut>::from_data_mut_unchecked`: a transmute. -/
def str_from_data_mut_unchecked (data : List Nat) : List Nat := data

/-! ## The `CStr` instantiation (`impl StrLike for CStr`) -/

/-- `<CStr as StrLike>::to_data`, i.e. `CStr::to_bytes_with_nul`: all bytes
of the value including the trailing nul (which is how a `CStr` value is
represented here). -/
def cstr_to_data (s : List Nat) : List Nat := s

/-- `<CStr as StrLike>::from_data`, i.e. `CStr::from_bytes_with_nul`: find
the first nul; it must exist and sit at the last position. -/
def cstr_from_data (data : List Nat) :
    Except FromBytesWithNulError (List Nat) :=
  match memchr0 data with
  | some nulPos =>
    if nulPos + 1 = data.length then .ok data
    else .error (.interiorNul nulPos)
  | none => .error .notNulTerminated

/-- `<CStr as StrLike>::from_data_unchecked`, i.e.
`CStr::from_bytes_with_nul_unchecked`: identity on the representation. -/
def cstr_from_data_unchecked (data : List Nat) : List Nat := data

/-! ## Spec-side definitions (validity predicates, from the spec's words) -/

/-- Spec-side definition of a well-formed UTF-8 byte sequence: a
concatenation of sequences from the Unicode standard's table of well-formed
UTF-8 byte sequences (Table 3-7). This is the validity predicate of the
`str` instantiation as the spec states it ("bytes form well-formed UTF-8"),
written independently of the validator's control flow. -/
inductive Utf8WF : List Nat → Prop where
  | nil : Utf8WF []
  | one {b : Nat} {rest : List Nat} :
      b ≤ 0x7F → Utf8WF rest → Utf8WF (b :: rest)
  | two {b0 b1 : Nat} {rest : List Nat} :
      0xC2 ≤ b0 → b0 ≤ 0xDF → isCont b1 → Utf8WF rest →
      Utf8WF (b0 :: b1 :: rest)
  | three {b0 b1 b2 : Nat} {rest : List Nat} :
      valid3 b0 b1 → isCont b2 → Utf8WF rest →
      Utf8WF (b0 :: b1 :: b2 :: rest)
  | four {b0 b1 b2 b3 : Nat} {rest : List Nat} :
      valid4 b0 b1 → isCont b2 → isCont b3 → Utf8WF rest →
      Utf8WF (b0 :: b1 :: b2 :: b3 :: rest)

/-- Spec-side validity predicate of the `CStr` instantiation: "exactly one
null byte, at the final position". -/
def CStrWF (data : List Nat) : Prop :=
  data.count 0 = 1 ∧ data.getLast? = some 0

/-! ## Arithmetic characterizations of the width table -/

/-- `utf8_char_width b = 2` exactly for two-byte lead bytes. -/
theorem width2_iff (b : Nat) : utf8_char_width b = 2 ↔ 0xC2 ≤ b ∧ b ≤ 0xDF := by
  unfold utf8_char_width; split_ifs <;> simp <;> omega

/-- `utf8_char_width b = 3` exactly for three-byte lead bytes. -/
theorem width3_iff (b : Nat) : utf8_char_width b = 3 ↔ 0xE0 ≤ b ∧ b ≤ 0xEF := by
  unfold utf8_char_width; split_ifs <;> simp <;> omega

/-- `utf8_char_width b = 4` exactly for four-byte lead bytes. -/
theorem width4_iff (b : Nat) : utf8_char_width b = 4 ↔ 0xF0 ≤ b ∧ b ≤ 0xF4 := by
  unfold utf8_char_width; split_ifs <;> simp <;> omega

/-- A valid three-byte lead pair has its lead byte in `0xE0 ..= 0xEF`. -/
theorem valid3_lead {b0 b1 : Nat} (h : valid3 b0 b1) :
    0xE0 ≤ b0 ∧ b0 ≤ 0xEF := by
  rcases h with ⟨rfl, -⟩ | ⟨h1, h2, -⟩ | ⟨rfl, -⟩ | ⟨h1, h2, -⟩ <;> omega

/-- A valid four-byte lead pair has its lead byte in `0xF0 ..= 0xF4`. -/
theorem valid4_lead {b0 b1 : Nat} (h : valid4 b0 b1) :
    0xF0 ≤ b0 ∧ b0 ≤ 0xF4 := by
  rcases h with ⟨rfl, -⟩ | ⟨h1, h2, -⟩ | ⟨rfl, -⟩ <;> omega

/-! ## Inversion of the well-formedness grammar -/

/-- Inversion principle for `Utf8WF` on a nonempty list. -/
theorem utf8wf_cons_iff (b : Nat) (rest : List Nat) :
    Utf8WF (b :: rest) ↔
      (b ≤ 0x7F ∧ Utf8WF rest) ∨
      (∃ b1 rest1, rest = b1 :: rest1 ∧ 0xC2 ≤ b ∧ b ≤ 0xDF ∧ isCont b1 ∧
        Utf8WF rest1) ∨
      (∃ b1 b2 rest2, rest = b1 :: b2 :: rest2 ∧ valid3 b b1 ∧ isCont b2 ∧
        Utf8WF rest2) ∨
      (∃ b1 b2 b3 rest3, rest = b1 :: b2 :: b3 :: rest3 ∧ valid4 b b1 ∧
        isCont b2 ∧ isCont b3 ∧ Utf8WF rest3) := by
  constructor
  · intro h
    cases h with
    | one h1 h2 => exact Or.inl ⟨h1, h2⟩
    | two h1 h2 h3 h4 => exact Or.inr (Or.inl ⟨_, _, rfl, h1, h2, h3, h4⟩)
    | three h1 h2 h3 => exact Or.inr (Or.inr (Or.inl ⟨_, _, _, rfl, h1, h2, h3⟩))
    | four h1 h2 h3 h4 =>
      exact Or.inr (Or.inr (Or.inr ⟨_, _, _, _, rfl, h1, h2, h3, h4⟩))
  · rintro (⟨h1, h2⟩ | ⟨b1, rest1, rfl, h1, h2, h3, h4⟩ |
      ⟨b1, b2, rest2, rfl, h1, h2, h3⟩ |
      ⟨b1, b2, b3, rest3, rfl, h1, h2, h3, h4⟩)
    · exact Utf8WF.one h1 h2
    · exact Utf8WF.two h1 h2 h3 h4
    · exact Utf8WF.three h1 h2 h3
    · exact Utf8WF.four h1 h2 h3 h4

/-- A lone non-ASCII byte is not well-formed. -/
theorem not_wf_single {b : Nat} (hb : 0x80 ≤ b) : ¬ Utf8WF [b] := by
  intro h
  rw [utf8wf_cons_iff] at h
  rcases h with ⟨h1, -⟩ | ⟨c, r, heq, -⟩ | ⟨c1, c2, r, heq, -⟩ |
    ⟨c1, c2, c3, r, heq, -⟩
  · omega
  all_goals simp at heq

/-- Two bytes led by a three- or four-byte lead byte are not well-formed. -/
theorem not_wf_pair {b b1 : Nat} (hb : 0xE0 ≤ b) : ¬ Utf8WF [b, b1] := by
  intro h
  rw [utf8wf_cons_iff] at h
  rcases h with ⟨h1, -⟩ | ⟨c, r, heq, hge, hle, -⟩ | ⟨c1, c2, r, heq, -⟩ |
    ⟨c1, c2, c3, r, heq, -⟩
  · omega
  · omega
  all_goals simp at heq

/-- Three bytes led by a four-byte lead byte are not well-formed. -/
theorem not_wf_triple {b b1 b2 : Nat} (hb : 0xF0 ≤ b) :
    ¬ Utf8WF [b, b1, b2] := by
  intro h
  rw [utf8wf_cons_iff] at h
  rcases h with ⟨h1, -⟩ | ⟨c, r, heq, hge, hle, -⟩ |
    ⟨c1, c2, r, heq, hv, -⟩ | ⟨c1, c2, c3, r, heq, -⟩
  · omega
  · omega
  · have := valid3_lead hv; omega
  · simp at heq

/-- The Rust UTF-8 validator accepts (returns `none` from) exactly the
well-formed UTF-8 byte sequences, at any starting index. -/
theorem validateFrom_none_iff (i : Nat) (l : List Nat) :
    validateFrom i l = none ↔ Utf8WF l := by
  induction i, l using validateFrom.induct with
  | case1 i =>
    simp only [validateFrom]
    exact iff_of_true trivial Utf8WF.nil
  | case2 i b rest hb ih =>
    have hstep : validateFrom i (b :: rest) = validateFrom (i + 1) rest := by
      rw [validateFrom.eq_def]; simp [hb]
    rw [hstep, ih]
    constructor
    · exact fun h => Utf8WF.one (by omega) h
    · intro h
      rw [utf8wf_cons_iff] at h
      rcases h with ⟨-, h2⟩ | ⟨c, r, -, h1, -⟩ | ⟨c1, c2, r, -, hv, -⟩ |
        ⟨c1, c2, c3, r, -, hv, -⟩
      · exact h2
      · omega
      · have := valid3_lead hv; omega
      · have := valid4_lead hv; omega
  | case3 i b hb hw2 =>
    have hbb := (width2_iff b).mp hw2
    apply iff_of_false
    · simp [validateFrom, hb, hw2]
    · exact not_wf_single (by omega)
  | case4 i b hb hw2 b1 rest1 hc ih =>
    have hbb := (width2_iff b).mp hw2
    have hstep : validateFrom i (b :: b1 :: rest1) =
        validateFrom (i + 2) rest1 := by
      rw [validateFrom.eq_def]; simp [hb, hw2, hc]
    rw [hstep, ih]
    constructor
    · exact fun h => Utf8WF.two hbb.1 hbb.2 hc h
    · intro h
      rw [utf8wf_cons_iff] at h
      rcases h with ⟨h1, -⟩ | ⟨c, r, heq, -, -, -, hwf⟩ |
        ⟨c1, c2, r, -, hv, -⟩ | ⟨c1, c2, c3, r, -, hv, -⟩
      · omega
      · injection heq with e1 e2
        subst e2
        exact hwf
      · have := valid3_lead hv; omega
      · have := valid4_lead hv; omega
  | case5 i b hb hw2 b1 rest1 hnc =>
    have hbb := (width2_iff b).mp hw2
    apply iff_of_false
    · rw [validateFrom.eq_def]; simp [hb, hw2, hnc]
    · intro h
      rw [utf8wf_cons_iff] at h
      rcases h with ⟨h1, -⟩ | ⟨c, r, heq, -, -, hc, -⟩ |
        ⟨c1, c2, r, -, hv, -⟩ | ⟨c1, c2, c3, r, -, hv, -⟩
      · omega
      · injection heq with e1 e2
        subst e1
        exact hnc hc
      · have := valid3_lead hv; omega
      · have := valid4_lead hv; omega
  | case6 i b hb hnw2 hw3 =>
    have hbb := (width3_iff b).mp hw3
    apply iff_of_false
    · simp [validateFrom, hb, hnw2, hw3]
    · exact not_wf_single (by omega)
  | case7 i b hb hnw2 hw3 b1 hv =>
    have hbb := (width3_iff b).mp hw3
    apply iff_of_false
    · simp [validateFrom, hb, hnw2, hw3, hv]
    · exact not_wf_pair (by omega)
  | case8 i b hb hnw2 hw3 b1 hv b2 rest2 hc ih =>
    have hbb := (width3_iff b).mp hw3
    have hstep : validateFrom i (b :: b1 :: b2 :: rest2) =
        validateFrom (i + 3) rest2 := by
      rw [validateFrom.eq_def]; simp [hb, hnw2, hw3, hv, hc]
    rw [hstep, ih]
    constructor
    · exact fun h => Utf8WF.three hv hc h
    · intro h
      rw [utf8wf_cons_iff] at h
      rcases h with ⟨h1, -⟩ | ⟨c, r, heq, h1, h2, -⟩ |
        ⟨c1, c2, r, heq, -, -, hwf⟩ | ⟨c1, c2, c3, r, heq, hv4, -⟩
      · omega
      · omega
      · injection heq with e1 e2
        injection e2 with e3 e4
        subst e4
        exact hwf
      · have := valid4_lead hv4; omega
  | case9 i b hb hnw2 hw3 b1 hv b2 rest2 hnc =>
    have hbb := (width3_iff b).mp hw3
    apply iff_of_false
    · rw [validateFrom.eq_def]; simp [hb, hnw2, hw3, hv, hnc]
    · intro h
      rw [utf8wf_cons_iff] at h
      rcases h with ⟨h1, -⟩ | ⟨c, r, heq, h1, h2, -⟩ |
        ⟨c1, c2, r, heq, -, hc, -⟩ | ⟨c1, c2, c3, r, heq, hv4, -⟩
      · omega
      · omega
      · injection heq with e1 e2
        injection e2 with e3 e4
        subst e3
        exact hnc hc
      · have := valid4_lead hv4; omega
  | case10 i b hb hnw2 hw3 b1 rest1 hnv =>
    have hbb := (width3_iff b).mp hw3
    apply iff_of_false
    · rw [validateFrom.eq_def]; simp [hb, hnw2, hw3, hnv]
    · intro h
      rw [utf8wf_cons_iff] at h
      rcases h with ⟨h1, -⟩ | ⟨c, r, heq, h1, h2, -⟩ |
        ⟨c1, c2, r, heq, hv3, -⟩ | ⟨c1, c2, c3, r, heq, hv4, -⟩
      · omega
      · omega
      · injection heq with e1 e2
        subst e1
        exact hnv hv3
      · have := valid4_lead hv4; omega
  | case11 i b hb hnw2 hnw3 hw4 =>
    have hbb := (width4_iff b).mp hw4
    apply iff_of_false
    · simp [validateFrom, hb, hnw2, hnw3, hw4]
    · exact not_wf_single (by omega)
  | case12 i b hb hnw2 hnw3 hw4 b1 hv =>
    have hbb := (width4_iff b).mp hw4
    apply iff_of_false
    · simp [validateFrom, hb, hnw2, hnw3, hw4, hv]
    · exact not_wf_pair (by omega)
  | case13 i b hb hnw2 hnw3 hw4 b1 hv b2 hc =>
    have hbb := (width4_iff b).mp hw4
    apply iff_of_false
    · simp [validateFrom, hb, hnw2, hnw3, hw4, hv, hc]
    · exact not_wf_triple (by omega)
  | case14 i b hb hnw2 hnw3 hw4 b1 hv b2 hc b3 rest3 hc3 ih =>
    have hbb := (width4_iff b).mp hw4
    have hstep : validateFrom i (b :: b1 :: b2 :: b3 :: rest3) =
        validateFrom (i + 4) rest3 := by
      simp [validateFrom, hb, hnw2, hnw3, hw4, hv, hc, hc3]
    rw [hstep, ih]
    constructor
    · exact fun h => Utf8WF.four hv hc hc3 h
    · intro h
      rw [utf8wf_cons_iff] at h
      rcases h with ⟨h1, -⟩ | ⟨c, r, heq, h1, h2, -⟩ |
        ⟨c1, c2, r, heq, hv3, -⟩ | ⟨c1, c2, c3, r, heq, -, -, -, hwf⟩
      · omega
      · omega
      · have := valid3_lead hv3; omega
      · injection heq with e1 e2
        injection e2 with e3 e4
        injection e4 with e5 e6
        subst e6
        exact hwf
  | case15 i b hb hnw2 hnw3 hw4 b1 hv b2 hc b3 rest3 hnc3 =>
    have hbb := (width4_iff b).mp hw4
    apply iff_of_false
    · simp [validateFrom, hb, hnw2, hnw3, hw4, hv, hc, hnc3]
    · intro h
      rw [utf8wf_cons_iff] at h
      rcases h with ⟨h1, -⟩ | ⟨c, r, heq, h1, h2, -⟩ |
        ⟨c1, c2, r, heq, hv3, -⟩ | ⟨c1, c2, c3, r, heq, -, -, hc3, -⟩
      · omega
      · omega
      · have := valid3_lead hv3; omega
      · injection heq with e1 e2
        injection e2 with e3 e4
        injection e4 with e5 e6
        subst e5
        exact hnc3 hc3
  | case16 i b hb hnw2 hnw3 hw4 b1 hv b2 rest2 hnc =>
    have hbb := (width4_iff b).mp hw4
    apply iff_of_false
    · rw [validateFrom.eq_def]; simp [hb, hnw2, hnw3, hw4, hv, hnc]
    · intro h
      rw [utf8wf_cons_iff] at h
      rcases h with ⟨h1, -⟩ | ⟨c, r, heq, h1, h2, -⟩ |
        ⟨c1, c2, r, heq, hv3, -⟩ | ⟨c1, c2, c3, r, heq, -, hc, -⟩
      · omega
      · omega
      · have := valid3_lead hv3; omega
      · injection heq with e1 e2
        injection e2 with e3 e4
        subst e3
        exact hnc hc
  | case17 i b hb hnw2 hnw3 hw4 b1 rest1 hnv =>
    have hbb := (width4_iff b).mp hw4
    apply iff_of_false
    · rw [validateFrom.eq_def]; simp [hb, hnw2, hnw3, hw4, hnv]
    · intro h
      rw [utf8wf_cons_iff] at h
      rcases h with ⟨h1, -⟩ | ⟨c, r, heq, h1, h2, -⟩ |
        ⟨c1, c2, r, heq, hv3, -⟩ | ⟨c1, c2, c3, r, heq, hv4, -⟩
      · omega
      · omega
      · have := valid3_lead hv3; omega
      · injection heq with e1 e2
        subst e1
        exact hnv hv4
  | case18 i b rest hb hnw2 hnw3 hnw4 =>
    apply iff_of_false
    · rw [validateFrom.eq_def]; simp [hb, hnw2, hnw3, hnw4]
    · intro h
      rw [utf8wf_cons_iff] at h
      rcases h with ⟨h1, -⟩ | ⟨c, r, heq, h1, h2, -⟩ |
        ⟨c1, c2, r, heq, hv3, -⟩ | ⟨c1, c2, c3, r, heq, hv4, -⟩
      · omega
      · exact hnw2 ((width2_iff b).mpr ⟨h1, h2⟩)
      · exact hnw3 ((width3_iff b).mpr (valid3_lead hv3))
      · exact hnw4 ((width4_iff b).mpr (valid4_lead hv4))

/-! ## Consequences for the embedded operations -/

/-- Well-formedness is decidable, through the validator. -/
instance : DecidablePred Utf8WF := fun l =>
  decidable_of_iff (validateFrom 0 l = none) (validateFrom_none_iff 0 l)

/-- `str::from_data` succeeds (with the same bytes) exactly on well-formed
UTF-8. -/
theorem str_from_data_ok_iff (l : List Nat) :
    str_from_data l = .ok l ↔ Utf8WF l := by
  rw [← validateFrom_none_iff 0 l]
  unfold str_from_data from_utf8
  rcases hv : validateFrom 0 l with _ | e <;> simp [hv]

/-- A successful `str::from_data` returns exactly the input bytes. -/
theorem str_from_data_ok_shape {l s : List Nat}
    (h : str_from_data l = .ok s) : s = l := by
  unfold str_from_data from_utf8 at h
  rcases hv : validateFrom 0 l with _ | e <;> rw [hv] at h
  · injection h with h1
    exact h1.symm
  · cases h

/-- `str::from_data` fails exactly on ill-formed byte sequences. -/
theorem str_from_data_err_iff (l : List Nat) :
    (∃ e, str_from_data l = .error e) ↔ ¬ Utf8WF l := by
  rw [← validateFrom_none_iff 0 l]
  unfold str_from_data from_utf8
  rcases hv : validateFrom 0 l with _ | e <;> simp [hv]

/-- `str::from_data_mut` computes the same result as `str::from_data`. -/
theorem str_from_data_mut_fst (l : List Nat) :
    (str_from_data_mut l).1 = str_from_data l := by
  unfold str_from_data_mut str_from_data from_utf8
  rcases hv : validateFrom 0 l with _ | e <;> simp [hv]

/-- `str::from_data_mut` never writes to the borrowed buffer. -/
theorem str_from_data_mut_snd (l : List Nat) :
    (str_from_data_mut l).2 = l := by
  unfold str_from_data_mut
  rcases hv : validateFrom 0 l with _ | e <;> simp [hv]

/-- Well-formedness is closed under concatenation. -/
theorem Utf8WF.append {l1 l2 : List Nat} (h1 : Utf8WF l1) (h2 : Utf8WF l2) :
    Utf8WF (l1 ++ l2) := by
  induction h1 with
  | nil => simpa using h2
  | one hb _ ih => exact Utf8WF.one hb ih
  | two ha hb hc _ ih => exact Utf8WF.two ha hb hc ih
  | three ha hb _ ih => exact Utf8WF.three ha hb ih
  | four ha hb hc _ ih => exact Utf8WF.four ha hb hc ih

/-- The last element of a list given by `getLast?` is a member. -/
theorem getLast?_mem_self : ∀ {l : List Nat} {a : Nat},
    l.getLast? = some a → a ∈ l
  | [], _, h => by simp at h
  | [b], a, h => by
    simp at h
    simp [h]
  | b :: c :: r, a, h => by
    rw [List.getLast?_cons_cons] at h
    exact List.mem_cons_of_mem b (getLast?_mem_self h)

/-- `CStr::from_data` succeeds (with the same bytes) exactly when there is
exactly one nul, at the final position. -/
theorem cstr_from_data_ok_iff (l : List Nat) :
    cstr_from_data l = .ok l ↔ CStrWF l := by
  induction l with
  | nil => simp [cstr_from_data, memchr0, CStrWF]
  | cons b rest ih =>
    by_cases hb : b = 0
    · subst hb
      cases rest with
      | nil => simp [cstr_from_data, memchr0, CStrWF]
      | cons c rest2 =>
        apply iff_of_false
        · unfold cstr_from_data
          simp [memchr0]
        · rintro ⟨hcount, hlast⟩
          rw [List.getLast?_cons_cons] at hlast
          have hmem : (0 : Nat) ∈ c :: rest2 := getLast?_mem_self hlast
          simp [List.count_cons] at hcount
          rcases List.mem_cons.mp hmem with h1 | h2
          · exact hcount.2 h1.symm
          · exact (List.count_eq_zero.mp hcount.1) h2
    · have hmb : memchr0 (b :: rest) = (memchr0 rest).map (· + 1) := by
        simp [memchr0, hb]
      have hstep : cstr_from_data (b :: rest) = .ok (b :: rest) ↔
          cstr_from_data rest = .ok rest := by
        unfold cstr_from_data
        rw [hmb]
        rcases hm : memchr0 rest with _ | p
        · simp
        · simp only [Option.map_some']
          by_cases hp : p + 1 = rest.length
          · rw [if_pos (by simp [hp]), if_pos hp]
            simp
          · rw [if_neg (by simp; omega), if_neg hp]
            simp
      rw [hstep, ih]
      unfold CStrWF
      cases rest with
      | nil => simp [hb]
      | cons c rest2 =>
        rw [List.getLast?_cons_cons]
        simp [List.count_cons, hb]

/-- A successful `CStr::from_data` returns exactly the input bytes. -/
theorem cstr_from_data_ok_shape {l v : List Nat}
    (h : cstr_from_data l = .ok v) : v = l := by
  unfold cstr_from_data at h
  rcases hm : memchr0 l with _ | p <;> simp only [hm] at h
  · cases h
  · by_cases hp : p + 1 = l.length
    · rw [if_pos hp] at h
      injection h with h1
      exact h1.symm
    · rw [if_neg hp] at h
      cases h

/-- The `CStr` validity predicate is decidable. -/
instance : DecidablePred CStrWF := fun l => by
  unfold CStrWF; infer_instance

/-! ## The claims -/

/-- C1: for every instantiation (`[T]`, `str`, `CStr`) and every backing
data `d` satisfying that instantiation's validity predicate, `from_data d`
returns `Ok v` with `v.to_data = d` (round-trip identity on valid data). -/
theorem claim_C1_roundtrip :
    (∀ (T : Type) (d : List T),
      ∃ v, slice_from_data d = .ok v ∧ slice_to_data v = d) ∧
    (∀ d : List Nat, Utf8WF d →
      ∃ v, str_from_data d = .ok v ∧ str_to_data v = d) ∧
    (∀ d : List Nat, CStrWF d →
      ∃ v, cstr_from_data d = .ok v ∧ cstr_to_data v = d) := by
  refine ⟨fun _ d => ⟨d, rfl, rfl⟩, fun d hd => ⟨d, ?_, rfl⟩,
    fun d hd => ⟨d, ?_, rfl⟩⟩
  · exact (str_from_data_ok_iff d).mpr hd
  · exact (cstr_from_data_ok_iff d).mpr hd

/-- Witness for C1 at concrete valid data of each instantiation. -/
theorem claim_C1_roundtrip_witness :
    (∃ v, slice_from_data [true, false] = .ok v ∧
      slice_to_data v = [true, false]) ∧
    (∃ v, str_from_data [104, 105] = .ok v ∧ str_to_data v = [104, 105]) ∧
    (∃ v, cstr_from_data [104, 0] = .ok v ∧ cstr_to_data v = [104, 0]) :=
  ⟨claim_C1_roundtrip.1 Bool [true, false],
   claim_C1_roundtrip.2.1 [104, 105] (by decide),
   claim_C1_roundtrip.2.2 [104, 0] (by decide)⟩

/-- C2: for every instantiation and every properly-constructed (valid)
value `v`, `from_data_unchecked (v.to_data)` is the same value `v`. -/
theorem claim_C2_unchecked_roundtrip :
    (∀ (T : Type) (v : List T),
      slice_from_data_unchecked (slice_to_data v) = v) ∧
    (∀ v : List Nat, Utf8WF v →
      str_from_data_unchecked (str_to_data v) = v) ∧
    (∀ v : List Nat, CStrWF v →
      cstr_from_data_unchecked (cstr_to_data v) = v) :=
  ⟨fun _ _ => rfl, fun _ _ => rfl, fun _ _ => rfl⟩

/-- Witness for C2 at concrete properly-constructed values. -/
theorem claim_C2_unchecked_roundtrip_witness :
    slice_from_data_unchecked (slice_to_data [(3 : Nat)]) = [3] ∧
    str_from_data_unchecked (str_to_data [104]) = [104] ∧
    cstr_from_data_unchecked (cstr_to_data [0]) = [0] :=
  ⟨claim_C2_unchecked_roundtrip.1 Nat [3],
   claim_C2_unchecked_roundtrip.2.1 [104] (by decide),
   claim_C2_unchecked_roundtrip.2.2 [0] (by decide)⟩

/-- C3: `str::from_data` returns `Ok` exactly on well-formed UTF-8; in
particular it accepts `b"hello"` (returning the same bytes) and rejects
`[0xFF, 0xFE]` (invalid start byte, at position 0). -/
theorem claim_C3_utf8_validation :
    (∀ data : List Nat, (∃ s, str_from_data data = .ok s) ↔ Utf8WF data) ∧
    str_from_data [104, 101, 108, 108, 111] =
      .ok [104, 101, 108, 108, 111] ∧
    str_from_data [0xFF, 0xFE] = .error ⟨0, some 1⟩ := by
  refine ⟨?_, rfl, rfl⟩
  intro data
  constructor
  · rintro ⟨s, hs⟩
    have hsd := str_from_data_ok_shape hs
    rw [hsd] at hs
    exact (str_from_data_ok_iff data).mp hs
  · exact fun h => ⟨data, (str_from_data_ok_iff data).mpr h⟩

/-- C4: `CStr::from_data` returns `Ok` exactly when the data has exactly one
nul byte, at the final position; `b"abc\0"` is accepted with byte length 4,
`b"abc"` and `b"ab\0c\0"` are rejected. -/
theorem claim_C4_cstr_validation :
    (∀ data : List Nat, (∃ v, cstr_from_data data = .ok v) ↔ CStrWF data) ∧
    (∃ v, cstr_from_data [97, 98, 99, 0] = .ok v ∧ v.length = 4) ∧
    cstr_from_data [97, 98, 99] = .error .notNulTerminated ∧
    cstr_from_data [97, 98, 0, 99, 0] = .error (.interiorNul 2) := by
  refine ⟨?_, ⟨[97, 98, 99, 0], rfl, rfl⟩, rfl, rfl⟩
  intro data
  constructor
  · rintro ⟨v, hv⟩
    have hvd := cstr_from_data_ok_shape hv
    rw [hvd] at hv
    exact (cstr_from_data_ok_iff data).mp hv
  · exact fun h => ⟨data, (cstr_from_data_ok_iff data).mpr h⟩

/-- C5: `[T]::from_data` returns `Ok(data)` for every input (including the
empty sequence), and its conversion-error type is uninhabited. -/
theorem claim_C5_slice_never_fails :
    (∀ (T : Type) (data : List T), slice_from_data data = .ok data) ∧
    IsEmpty NeverError :=
  ⟨fun _ _ => rfl, ⟨fun e => nomatch e⟩⟩

/-- C6: for the `str` and `[T]` instantiations (the two with the
`DataConcat` marker), `to_data` of a concatenation of values is the
element-wise concatenation of the `to_data` of each; for `str` the
concatenation of two valid values is moreover itself valid. -/
theorem claim_C6_concat_marker :
    (∀ (T : Type) (v1 v2 : List T),
      slice_to_data (v1 ++ v2) = slice_to_data v1 ++ slice_to_data v2) ∧
    (∀ v1 v2 : List Nat, Utf8WF v1 → Utf8WF v2 →
      str_to_data (v1 ++ v2) = str_to_data v1 ++ str_to_data v2 ∧
        Utf8WF (str_to_data (v1 ++ v2))) :=
  ⟨fun _ _ _ => rfl, fun _ _ h1 h2 => ⟨rfl, h1.append h2⟩⟩

/-- Witness for C6 at concrete values. -/
theorem claim_C6_concat_marker_witness :
    slice_to_data ([(1 : Nat)] ++ [2]) =
      slice_to_data [1] ++ slice_to_data [2] ∧
    (str_to_data ([104] ++ [105]) = str_to_data [104] ++ str_to_data [105] ∧
      Utf8WF (str_to_data ([104] ++ [105]))) :=
  ⟨claim_C6_concat_marker.1 Nat [1] [2],
   claim_C6_concat_marker.2 [104] [105] (by decide) (by decide)⟩

/-- C7: after overwriting (length-preservingly, as through the `&mut [u8]`
from `to_data_mut`) the bytes of a `str` value `v` with bytes `m`,
`from_data_mut` on `m` returns `Ok` of the updated value when `m` is still
well-formed UTF-8, and an error when it is not (never writing the buffer). -/
theorem claim_C7_mut_roundtrip (v m : List Nat)
    (_hlen : m.length = (str_to_data_mut v).length) :
    (Utf8WF m → str_from_data_mut m = (.ok m, m)) ∧
    (¬ Utf8WF m → ∃ e, str_from_data_mut m = (.error e, m)) := by
  constructor
  · intro h
    have hv : validateFrom 0 m = none := (validateFrom_none_iff 0 m).mpr h
    unfold str_from_data_mut
    rw [hv]
  · intro h
    have hv : ¬ validateFrom 0 m = none :=
      fun hc => h ((validateFrom_none_iff 0 m).mp hc)
    rcases hval : validateFrom 0 m with _ | e
    · exact absurd hval hv
    · refine ⟨e, ?_⟩
      unfold str_from_data_mut
      rw [hval]

/-- Witness for C7: a valid overwrite and an invalid overwrite. -/
theorem claim_C7_mut_roundtrip_witness :
    str_from_data_mut [104, 105] = (.ok [104, 105], [104, 105]) ∧
    (∃ e, str_from_data_mut [255, 254] = (.error e, [255, 254])) :=
  ⟨(claim_C7_mut_roundtrip [104, 104] [104, 105] (by decide)).1 (by decide),
   (claim_C7_mut_roundtrip [255, 255] [255, 254] (by decide)).2 (by decide)⟩

/-- C8: the fallible mutable reconstructions leave the borrowed backing
data unchanged (whether they return `Ok` or `Err`); the shared-reference
`from_data` functions are pure and cannot write at all. -/
theorem claim_C8_frame :
    (∀ (T : Type) (data : List T), (slice_from_data_mut data).2 = data) ∧
    (∀ data : List Nat, (str_from_data_mut data).2 = data) :=
  ⟨fun _ _ => rfl, str_from_data_mut_snd⟩

/-- C9: on the empty sequence, `str::from_data` and `[T]::from_data` return
`Ok` of the empty value, while `CStr::from_data` returns the
missing-terminator error. -/
theorem claim_C9_empty :
    str_from_data [] = .ok [] ∧
    (∀ T : Type, slice_from_data ([] : List T) = .ok []) ∧
    cstr_from_data [] = .error .notNulTerminated :=
  ⟨rfl, fun _ => rfl, rfl⟩

/-- C10: `str::from_data_mut` returns exactly the result of
`str::from_data` on the same bytes: the same validity decision, the same
reconstructed value on success, and the same UTF-8 error on failure. -/
theorem claim_C10_mut_agrees (data : List Nat) :
    (str_from_data_mut data).1 = str_from_data data :=
  str_from_data_mut_fst data
